import Mathlib

/-!
Shallow embedding of the Nimbus upload-manifest transform (src/app.py):
cells, the column resolver `get_col_by_header_row`, the per-row field
rules applied to the `hawb` sheet, the `mawb` fixed-cell edit, and the
end-to-end `process` pipeline over a parsed workbook container.

String primitives (trim, lower, slicing) are spelled out over `List Char`
so that every definition evaluates by kernel reduction.
-/

namespace Nimbus

/-- ASCII lowercasing of one character, as Python `str.lower` acts on the
ASCII range. -/
def charLower (c : Char) : Char :=
  if ('A' ≤ c) && (c ≤ 'Z') then Char.ofNat (c.toNat + 32) else c

/-- Python `str.strip()`: drop leading and trailing whitespace. -/
def trimChars (l : List Char) : List Char :=
  ((l.dropWhile (fun c => c.isWhitespace)).reverse.dropWhile
    (fun c => c.isWhitespace)).reverse

/-- `str.strip()` lifted to `String`. -/
def strTrim (s : String) : String :=
  String.mk (trimChars s.toList)

/-- `str.lower()` lifted to `String` (ASCII range). -/
def strLower (s : String) : String :=
  String.mk (s.toList.map charLower)

/-- A spreadsheet cell: text, an integer scalar, or blank/missing (NaN). -/
inductive Cell where
  | text (s : String)
  | num (n : Int)
  | missing
deriving DecidableEq, Repr

/-- Python `str(x)` on a cell value, as the code applies it to header cells
before stripping; a missing cell (float NaN) stringifies to "nan". -/
def cellStr : Cell → String
  | .text s => s
  | .num n => toString n
  | .missing => "nan"

/-- `norm` from app.py: strip, lowercase, and keep only ASCII letters and
digits (the regex `[^a-z0-9]+` removal after `.lower()`). -/
def norm (s : String) : String :=
  String.mk (((trimChars s.toList).map charLower).filter
    (fun c => c.isDigit || (('a' ≤ c) && (c ≤ 'z'))))

/-- Digits-to-number accumulator for the placeholder pattern's captured group. -/
def digitsToNat (l : List Char) : Nat :=
  l.foldl (fun a c => 10 * a + (c.toNat - 48)) 0

/-- The fullmatch of the pattern `unnamed:\s*(\d+)` against
`str(c).strip().lower()`: returns the captured position N when the
candidate is a positional placeholder, else none. -/
def parseUnnamed (s : String) : Option Nat :=
  let t := (trimChars s.toList).map charLower
  if t.take 8 = ("unnamed:").toList then
    let rest := (t.drop 8).dropWhile (fun c => c.isWhitespace)
    if rest ≠ [] && rest.all (fun c => c.isDigit) then some (digitsToNat rest)
    else none
  else none

/-- The trimmed header strings the resolver and the data stage both use:
`[str(x).strip() for x in header_row.values]`. -/
def trimmedHeaders (headerRow : List Cell) : List String :=
  headerRow.map (fun x => strTrim (cellStr x))

/-- Strategy 1 of the resolver: first candidate whose trimmed text occurs
byte-exactly among the trimmed headers; returns the trimmed candidate. -/
def exactMatch (headers : List String) (candidates : List String) : Option String :=
  (candidates.find? (fun c => headers.contains (strTrim c))).map (fun c => strTrim c)

/-- Strategy 2 of the resolver: first header (in header order) whose
normalized form equals the normalized form of any candidate. -/
def fuzzyMatch (headers : List String) (candidates : List String) : Option String :=
  headers.find? (fun h => (candidates.map norm).contains (norm h))

/-- Strategy 3 of the resolver: first candidate parsing as `unnamed: N`
such that the literal `Unnamed: N` occurs in the headers (returning the
literal) or N is in bounds (returning the header at position N). -/
def unnamedMatch (headers : List String) : List String → Option String
  | [] => none
  | c :: cs =>
    match parseUnnamed c with
    | none => unnamedMatch headers cs
    | some n =>
      if headers.contains ("Unnamed: " ++ toString n) then
        some ("Unnamed: " ++ toString n)
      else if n < headers.length then some (headers.getD n "")
      else unnamedMatch headers cs

/-- Strategy 4 of the resolver: the raw index fallback when supplied and
within `[0, headerLength)`. -/
def fallbackMatch (headers : List String) : Option Nat → Option String
  | some i => if i < headers.length then some (headers.getD i "") else none
  | none => none

/-- `get_col_by_header_row` from app.py: exact match, then normalized
fuzzy match, then positional placeholder, then index fallback; the first
strategy to yield a result wins (the Python early returns). Returns a
column name or none. -/
def get_col_by_header_row (headerRow : List Cell) (candidates : List String)
    (index_fallback : Option Nat) : Option String :=
  match exactMatch (trimmedHeaders headerRow) candidates with
  | some r => some r
  | none =>
    match fuzzyMatch (trimmedHeaders headerRow) candidates with
    | some r => some r
    | none =>
      match unnamedMatch (trimmedHeaders headerRow) candidates with
      | some r => some r
      | none => fallbackMatch (trimmedHeaders headerRow) index_fallback

/-- `truncate_half_if_over` from app.py: a text cell strictly longer than
the threshold keeps its first `floor(length / 2)` characters (the slice
`s[: len(s) // 2]`); every other cell is returned unchanged. -/
def truncate_half_if_over (s : Cell) (threshold : Nat) : Cell :=
  match s with
  | .text t =>
    if t.length > threshold then .text (String.mk (t.toList.take (t.length / 2)))
    else .text t
  | c => c

/-- Positions of the columns labelled `nm` among the data columns
(`data.columns` is the trimmed header list, duplicates possible). -/
def colOccurrences (headers : List String) (nm : String) : List Nat :=
  (List.range headers.length).filter (fun j => headers.getD j "" == nm)

/-- Apply `f` to the cell at column `j` of one row, as a column-wise
`Series.apply` acts on that single labelled column. -/
def applyAtCol (f : Cell → Cell) : Nat → List Cell → List Cell
  | _, [] => []
  | 0, c :: cs => f c :: cs
  | j + 1, c :: cs => c :: applyAtCol f j cs

/-- The guarded truncation block `if col in data.columns: data[col] =
data[col].apply(truncate_half_if_over)`. An unresolved column (none) or an
absent label is skipped; a uniquely labelled column is mapped cell-wise.
A duplicated label selects a two-dimensional frame, whose column-wise
`apply` hands each whole column object to `truncate_half_if_over`, which
fails its `isinstance(s, str)` test and returns it unchanged — a no-op. -/
def applyTruncCol (headers : List String) (col : Option String) (threshold : Nat)
    (rows : List (List Cell)) : List (List Cell) :=
  match col with
  | none => rows
  | some nm =>
    match colOccurrences headers nm with
    | [j] => rows.map (applyAtCol (fun c => truncate_half_if_over c threshold) j)
    | _ => rows

/-- Overwrite with the constant "CN" every cell of a row whose column
label equals `nm` (the scalar assignment `data[nm] = "CN"` writes to every
column bearing the label). -/
def setNamedCN (nm : String) : List String → List Cell → List Cell
  | _, [] => []
  | [], c :: cs => c :: setNamedCN nm [] cs
  | h :: hs, c :: cs => (if h = nm then Cell.text ("CN") else c) :: setNamedCN nm hs cs

/-- The guarded block `if coo_col in data.columns: data[coo_col] = "CN"`. -/
def applyCooCol (headers : List String) (col : Option String)
    (rows : List (List Cell)) : List (List Cell) :=
  match col with
  | none => rows
  | some nm =>
    if headers.contains nm then rows.map (setNamedCN nm headers) else rows

/-- The whitespace-only test of the regex replace `^\s*$ -> NA` (with no
MULTILINE flag the pattern matches exactly the all-whitespace values,
the empty string included). -/
def allWhitespace (s : String) : Bool :=
  s.toList.all (fun c => c.isWhitespace)

/-- Exactly six ASCII digits. -/
def sixDigits (l : List Char) : Bool :=
  l.length == 6 && l.all (fun c => c.isDigit)

/-- Python `re.match` of the zip pattern `^\d{6}$`: with no MULTILINE
flag, `$` matches at the end of the string or just before one trailing
newline, so the match succeeds on six digits, or on six digits followed
by a single final newline. -/
def matchZip (s : String) : Bool :=
  sixDigits s.toList ||
    (s.toList.length == 7 && s.toList.getLast? == some '\n' && sixDigits (s.toList.take 6))

/-- One cell of the zip rule: `astype("string")` coerces to text (missing
stays missing), the regex replace turns all-whitespace values into
missing, `str.match(pattern, na=False)` marks missing as invalid, and
`data.loc[~valid] = "123456"` overwrites the invalid cells. -/
def zipFix (c : Cell) : Cell :=
  match c with
  | .missing => .text ("123456")
  | .text s =>
    if allWhitespace s then .text ("123456")
    else if matchZip s then .text s
    else .text ("123456")
  | .num n =>
    if matchZip (toString n) then .text (toString n) else .text ("123456")

/-- The guarded zip block on a uniquely labelled column. An unresolved or
absent column is skipped. A duplicated label makes `data[zip_col].str`
raise (no string accessor on a two-dimensional frame); the surrounding
handler turns that into the processing failure the duplicate-label gate
of `processHawb` reports, so the rows returned here are never used. -/
def applyZipCol (headers : List String) (col : Option String)
    (rows : List (List Cell)) : List (List Cell) :=
  match col with
  | none => rows
  | some nm =>
    match colOccurrences headers nm with
    | [j] => rows.map (applyAtCol zipFix j)
    | _ => rows

/-- Duplicate test on the column labels: `reindex(columns=ordered_cols)`
raises on an axis with duplicate labels, so any duplicated trimmed header
aborts the per-sheet pipeline. -/
def hasDup : List String → Bool
  | [] => false
  | x :: xs => xs.contains x || hasDup xs

/-- `drop_col_indices` from app.py: every position whose trimmed header
equals "STATE", then the STATE fallback index appended when it is within
bounds and not already collected. -/
def drop_col_indices (orderedCols : List String) (stateIdx : Nat) : List Nat :=
  let base := (List.range orderedCols.length).filter
    (fun j => strTrim (orderedCols.getD j "") == "STATE")
  if stateIdx < orderedCols.length ∧ stateIdx ∉ base then base ++ [stateIdx]
  else base

/-- `hawb_out.iloc[:, keep_indices]` on one row: keep the cells whose
position is not listed for dropping (rows are rectangular, so the per-row
range equals the frame's column range). -/
def dropCols (dropIdxs : List Nat) (row : List Cell) : List Cell :=
  ((List.range row.length).filter (fun j => !(dropIdxs.contains j))).map
    (fun j => row.getD j Cell.missing)

/-- Fatal conditions of one invocation. `processingFailed` is the
catch-all handler around the pipeline (reached e.g. when duplicate header
labels make the zip accessor or the reindex raise). -/
inductive ErrorKind where
  | missingRequiredSheet (name : String)
  | insufficientHeaderRows
  | processingFailed
deriving DecidableEq, Repr

/-- The whole `hawb` branch: fewer than 3 raw rows is fatal; otherwise
row 1 is the authoritative header, rows 2.. are data, the five field
rules run in declaration order on the data rows, the first two raw rows
are put back verbatim, and the STATE drop removes whole columns from
every row alike. -/
def processHawb (grid : List (List Cell))
    (bwI bxI bzI cooI zipI stateI : Nat) : Except ErrorKind (List (List Cell)) :=
  if grid.length < 3 then .error .insufficientHeaderRows
  else
    let headerRow := grid.getD 1 []
    let headers := trimmedHeaders headerRow
    let dataRows := grid.drop 2
    let bw_col := get_col_by_header_row headerRow ["manufacture_name", "unnamed: 74"] (some bwI)
    let bx_col := get_col_by_header_row headerRow ["manufacture_address", "unnamed: 75"] (some bxI)
    let bz_col := get_col_by_header_row headerRow ["unnamed: 77"] (some bzI)
    let coo_col := get_col_by_header_row headerRow ["country_of_origin", "unnamed: 63"] (some cooI)
    let zip_col := get_col_by_header_row headerRow
      ["manufacture_zip_code", "manufacture_zip_code ", "unnamed: 78"] (some zipI)
    let d1 := applyTruncCol headers bw_col 100 dataRows
    let d2 := applyTruncCol headers bx_col 225 d1
    let d3 := applyTruncCol headers bz_col 8 d2
    let d4 := applyCooCol headers coo_col d3
    let d5 := applyZipCol headers zip_col d4
    if hasDup headers then .error .processingFailed
    else
      let out := grid.take 2 ++ d5
      .ok (out.map (dropCols (drop_col_indices headers stateI)))

/-- The `mawb` edit (lines 186-196 of app.py) on the parsed sheet: trimmed
header labels plus data rows in, the four branches of the L2 write out.
`get_loc` is modelled as the first occurrence of the unique label. -/
def mawbTransform (headers0 : List String) (rows : List (List Cell)) :
    List String × List (List Cell) :=
  let headers := headers0.map strTrim
  if headers.contains ("consignee_id_number") then
    match rows with
    | [] =>
      (headers, [headers.map (fun h =>
        if h = "consignee_id_number" then Cell.text ("2567704") else Cell.missing)])
    | r :: rs =>
      (headers, applyAtCol (fun _ => Cell.text ("2567704"))
        (headers.indexOf ("consignee_id_number")) r :: rs)
  else
    match rows with
    | [] => (["consignee_id_number"], [[Cell.text ("2567704")]])
    | r :: rs =>
      (headers ++ ["consignee_id_number"],
        (r ++ [Cell.text ("2567704")]) :: rs.map (fun row => row ++ [Cell.missing]))

/-- A parsed workbook container: named sheets of raw cell grids. -/
abbrev Container := List (String × List (List Cell))

/-- First sheet bearing a name, as the container collaborator exposes it. -/
def lookupSheet (c : Container) (nm : String) : Option (List (List Cell)) :=
  (c.find? (fun p => p.fst == nm)).map (fun p => p.snd)

/-- Reading `mawb` with a header row: row 0 supplies the column labels,
the remaining rows are data; an empty grid parses to an empty frame. -/
def mawbRead (g : List (List Cell)) : List String × List (List Cell) :=
  match g with
  | [] => ([], [])
  | r :: rs => (r.map cellStr, rs)

/-- The whole invocation on a parsed container: the `hawb` sheet is
required and transformed first, then the `mawb` sheet is required and
edited, and only then is the output container assembled (`hawb` written
without a pandas header, `mawb` written with its header row). Every fatal
condition returns before any output exists. -/
def process (c : Container) (bwI bxI bzI cooI zipI stateI : Nat) :
    Except ErrorKind Container :=
  match lookupSheet c ("hawb") with
  | none => .error (.missingRequiredSheet ("hawb"))
  | some hg =>
    match processHawb hg bwI bxI bzI cooI zipI stateI with
    | .error e => .error e
    | .ok hawbOut =>
      match lookupSheet c ("mawb") with
      | none => .error (.missingRequiredSheet ("mawb"))
      | some mg =>
        let parsed := mawbRead mg
        let res := mawbTransform parsed.fst parsed.snd
        .ok [("hawb", hawbOut), ("mawb", res.fst.map Cell.text :: res.snd)]

/-! ### Helper lemmas -/

/-- A list element read with a default inside the bounds is a member. -/
theorem getD_mem {l : List String} {j : Nat} {d : String} (h : j < l.length) :
    l.getD j d ∈ l := by
  induction l generalizing j with
  | nil => simp at h
  | cons a as ih =>
    cases j with
    | zero => simp
    | succ m =>
      simp only [List.getD_cons_succ]
      exact List.mem_cons_of_mem a (ih (by simpa using h))

/-- `find?` on a split list whose first matching element heads the suffix. -/
theorem find?_append_split {p : String → Bool} {pre suf : List String} {h : String}
    (hpre : ∀ x ∈ pre, p x = false) (hp : p h = true) :
    (pre ++ h :: suf).find? p = some h := by
  induction pre with
  | nil => simp [List.find?_cons, hp]
  | cons a as ih =>
    have ha : p a = false := hpre a (by simp)
    simp only [List.cons_append, List.find?_cons, ha]
    exact ih (fun x hx => hpre x (by simp [hx]))

/-- `map` commutes with an in-bounds `getD` read. -/
theorem getD_map_lt {α β : Type} (f : α → β) (l : List α) (i : Nat) (d : β) (d' : α)
    (h : i < l.length) : (l.map f).getD i d = f (l.getD i d') := by
  induction l generalizing i with
  | nil => simp at h
  | cons a as ih =>
    cases i with
    | zero => simp
    | succ m => simpa using ih m (by simpa using h)

/-- Every name the placeholder strategy returns occurs among the headers. -/
theorem unnamedMatch_mem {headers : List String} :
    ∀ {cands : List String} {r : String}, unnamedMatch headers cands = some r →
      r ∈ headers := by
  intro cands
  induction cands with
  | nil => intro r h; simp [unnamedMatch] at h
  | cons c cs ih =>
    intro r h
    rw [unnamedMatch] at h
    split at h
    next => exact ih h
    next n _ =>
      split at h
      next hc =>
        cases h
        exact List.elem_iff.mp hc
      next hc =>
        split at h
        next hn =>
          cases h
          exact getD_mem hn
        next hn => exact ih h

/-- `setNamedCN` rewrites exactly the positions whose label equals the
resolved name. -/
theorem setNamedCN_getD (nm : String) :
    ∀ (hs : List String) (row : List Cell) (j : Nat), j < row.length → j < hs.length →
      (setNamedCN nm hs row).getD j Cell.missing =
        (if hs.getD j "" = nm then Cell.text ("CN") else row.getD j Cell.missing) := by
  intro hs
  induction hs with
  | nil => intro row j _ hj; simp at hj
  | cons h hs ih =>
    intro row j hr hj
    cases row with
    | nil => simp at hr
    | cons c cs =>
      cases j with
      | zero => simp [setNamedCN]
      | succ m =>
        simp only [setNamedCN, List.getD_cons_succ]
        exact ih cs m (by simpa using hr) (by simpa using hj)

/-! ### C6: the truncation rule -/

/-- C6: `TruncateToHalfIfLongerThan(threshold)` replaces a text cell whose
character length strictly exceeds the threshold with its first
`floor(length / 2)` characters (a prefix of exactly that length) and
leaves shorter text, numbers and missing cells unchanged. -/
theorem C6_truncate_spec (t : Nat) (s : String) (n : Int) :
    (s.length > t → truncate_half_if_over (Cell.text s) t
        = Cell.text (String.mk (s.toList.take (s.length / 2)))) ∧
    (s.length ≤ t → truncate_half_if_over (Cell.text s) t = Cell.text s) ∧
    truncate_half_if_over Cell.missing t = Cell.missing ∧
    truncate_half_if_over (Cell.num n) t = Cell.num n ∧
    (String.mk (s.toList.take (s.length / 2))).length = s.length / 2 := by
  refine ⟨fun h => ?_, fun h => ?_, rfl, rfl, ?_⟩
  · simp [truncate_half_if_over, h]
  · simp [truncate_half_if_over, Nat.not_lt.mpr h]
  · show (s.toList.take (s.length / 2)).length = s.length / 2
    have hlen : s.toList.length = s.length := rfl
    rw [List.length_take, hlen]
    exact Nat.min_eq_left (Nat.div_le_self _ _)

/-- Witness for C6 at the 101-character string: the result is the
50-character prefix. -/
theorem C6_truncate_spec_witness :
    (String.mk (List.replicate 101 'a')).length > 100 ∧
    truncate_half_if_over (Cell.text (String.mk (List.replicate 101 'a'))) 100
      = Cell.text (String.mk (List.replicate 50 'a')) := by
  refine ⟨by decide, ?_⟩
  have h := (C6_truncate_spec 100 (String.mk (List.replicate 101 'a')) 0).1 (by decide)
  rw [h]
  decide

/-! ### C7: the zip fix rule -/

/-- C7 counterexample: the value of six digits followed by one trailing
newline is not a full-string match of the pattern, yet the code keeps it
unchanged instead of replacing it with "123456" (Python `$` also matches
just before a trailing newline). -/
theorem C7_counterexample :
    zipFix (Cell.text ("123456\n")) = Cell.text ("123456\n") ∧
    zipFix (Cell.text ("123456\n")) ≠ Cell.text ("123456") := by
  constructor
  · decide
  · decide

/-- C7 amended: the cell is coerced to text; missing and all-whitespace
values are invalid; a value is valid iff it is exactly six digits or six
digits followed by a single trailing newline (`re.match` with `$`);
invalid values become "123456" and valid values are kept. -/
theorem C7_zip_spec (s : String) (n : Int) :
    zipFix Cell.missing = Cell.text ("123456") ∧
    (allWhitespace s = true → zipFix (Cell.text s) = Cell.text ("123456")) ∧
    (allWhitespace s = false → matchZip s = true → zipFix (Cell.text s) = Cell.text s) ∧
    (allWhitespace s = false → matchZip s = false →
      zipFix (Cell.text s) = Cell.text ("123456")) ∧
    (matchZip s = true ↔ (sixDigits s.toList = true ∨
      (s.toList.length = 7 ∧ s.toList.getLast? = some '\n' ∧
        sixDigits (s.toList.take 6) = true))) ∧
    zipFix (Cell.num n)
      = (if matchZip (toString n) then Cell.text (toString n) else Cell.text ("123456")) := by
  refine ⟨rfl, fun h => ?_, fun h1 h2 => ?_, fun h1 h2 => ?_, ?_, rfl⟩
  · simp [zipFix, h]
  · simp [zipFix, h1, h2]
  · simp [zipFix, h1, h2]
  · simp [matchZip, Bool.or_eq_true, Bool.and_eq_true, beq_iff_eq, and_assoc]

/-- Witness for C7 at the five-digit string "12345": invalid, replaced. -/
theorem C7_zip_spec_witness :
    allWhitespace ("12345") = false ∧ matchZip ("12345") = false ∧
    zipFix (Cell.text ("12345")) = Cell.text ("123456") :=
  ⟨by decide, by decide, (C7_zip_spec ("12345") 0).2.2.2.1 (by decide) (by decide)⟩

/-! ### C1: the DropColumn rule -/

/-- C1 counterexample: with a 24-column header holding "STATE" at
position 0 and the default fallback index 23, the drop collects two
positions and removes two columns from a row, not exactly one. -/
theorem C1_counterexample :
    drop_col_indices ("STATE" :: List.replicate 23 ("x")) 23 = [0, 23] ∧
    (dropCols [0, 23] (List.replicate 24 (Cell.text ("v")))).length = 22 ∧
    ¬ (22 : Nat) = 24 - 1 := by
  refine ⟨by decide, by decide, by decide⟩

/-- C1 amended: the drop removes, uniformly from every row, exactly the
positions whose trimmed header equals "STATE" together with the fallback
index when it is within bounds; each collected position is dropped once,
and an invocation may remove zero, one, or several columns. -/
theorem C1_drop_spec (cols : List String) (k : Nat) :
    (∀ j : Nat, j ∈ drop_col_indices cols k ↔
      ((j < cols.length ∧ strTrim (cols.getD j "") = "STATE") ∨
        (j = k ∧ k < cols.length))) ∧
    (drop_col_indices cols k).Nodup := by
  have hbase : ∀ j : Nat,
      (j ∈ (List.range cols.length).filter
        (fun j => strTrim (cols.getD j "") == "STATE")) ↔
      (j < cols.length ∧ strTrim (cols.getD j "") = "STATE") := by
    intro j
    simp [List.mem_filter, List.mem_range, beq_iff_eq]
  have hbnd : ((List.range cols.length).filter
      (fun j => strTrim (cols.getD j "") == "STATE")).Nodup :=
    (List.nodup_range _).filter _
  constructor
  · intro j
    unfold drop_col_indices
    by_cases hc : k < cols.length ∧
        k ∉ (List.range cols.length).filter
          (fun j => strTrim (cols.getD j "") == "STATE")
    · rw [if_pos hc]
      simp only [List.mem_append, List.mem_singleton, hbase]
      constructor
      · rintro (hb | rfl)
        · exact Or.inl hb
        · exact Or.inr ⟨rfl, hc.1⟩
      · rintro (hb | ⟨rfl, _⟩)
        · exact Or.inl hb
        · exact Or.inr rfl
    · rw [if_neg hc]
      push_neg at hc
      constructor
      · intro hb
        exact Or.inl ((hbase j).mp hb)
      · rintro (hb | ⟨rfl, hk⟩)
        · exact (hbase j).mpr hb
        · exact hc hk
  · unfold drop_col_indices
    by_cases hc : k < cols.length ∧
        k ∉ (List.range cols.length).filter
          (fun j => strTrim (cols.getD j "") == "STATE")
    · rw [if_pos hc]
      refine List.Nodup.append hbnd (List.nodup_singleton k) ?_
      intro a ha hb
      rw [List.mem_singleton] at hb
      subst hb
      exact hc.2 ha
    · rw [if_neg hc]
      exact hbnd

/-! ### C2: the insufficient-rows fatal condition -/

/-- The hawb branch reports the insufficient-rows fatal condition exactly
on grids of fewer than 3 raw rows. -/
theorem processHawb_insufficient_iff (grid : List (List Cell))
    (bwI bxI bzI cooI zipI stateI : Nat) :
    processHawb grid bwI bxI bzI cooI zipI stateI = .error .insufficientHeaderRows ↔
      grid.length < 3 := by
  by_cases h : grid.length < 3
  · simp [processHawb, h]
  · simp only [processHawb, if_neg h]
    split
    · simp [h]
    · simp [h]

/-- The shape of a fatal outcome of the hawb branch: insufficient rows on
a short grid, or the duplicate-label failure. -/
theorem processHawb_error_shape (grid : List (List Cell))
    (bwI bxI bzI cooI zipI stateI : Nat) (e : ErrorKind)
    (h : processHawb grid bwI bxI bzI cooI zipI stateI = .error e) :
    (e = .insufficientHeaderRows ∧ grid.length < 3) ∨
    (e = .processingFailed ∧ hasDup (trimmedHeaders (grid.getD 1 [])) = true) := by
  simp only [processHawb] at h
  split at h
  next h3 =>
    cases h
    exact Or.inl ⟨rfl, h3⟩
  next h3 =>
    split at h
    next hdd =>
      cases h
      exact Or.inr ⟨rfl, hdd⟩
    next hdd => exact absurd h (by simp)

/-- A well-formed hawb grid (enough rows, duplicate-free trimmed headers)
is transformed without a fatal condition. -/
theorem processHawb_ok (grid : List (List Cell)) (bwI bxI bzI cooI zipI stateI : Nat)
    (h3 : ¬ grid.length < 3)
    (hd : hasDup (trimmedHeaders (grid.getD 1 [])) = false) :
    ∃ out, processHawb grid bwI bxI bzI cooI zipI stateI = .ok out := by
  rcases hres : processHawb grid bwI bxI bzI cooI zipI stateI with e | out
  · rcases processHawb_error_shape grid bwI bxI bzI cooI zipI stateI e hres with
      ⟨_, hlt⟩ | ⟨_, hdd⟩
    · exact absurd hlt h3
    · rw [hd] at hdd
      exact absurd hdd (by simp)
  · exact ⟨out, rfl⟩

/-- C2 counterexample: a hawb sheet of exactly 2 rows (its two header
rows, zero data rows) triggers the fatal insufficient-rows condition,
although the mawb sheet is present. -/
theorem C2_counterexample :
    ([[Cell.text ("h0")], [Cell.text ("h1")]] : List (List Cell)).length = 2 ∧
    process [("hawb", [[Cell.text ("h0")], [Cell.text ("h1")]]),
        ("mawb", [[Cell.text ("c")]])] 74 75 77 63 78 23
      = .error .insufficientHeaderRows :=
  ⟨rfl, rfl⟩

/-- C2 amended: with the hawb sheet present, the fatal insufficient-rows
condition occurs exactly when the sheet has fewer than 3 rows; a sheet of
two header rows and zero data rows does trigger it, and only sheets with
at least 3 rows continue. -/
theorem C2_insufficient_iff (c : Container) (g : List (List Cell))
    (bwI bxI bzI cooI zipI stateI : Nat)
    (h : lookupSheet c ("hawb") = some g) :
    process c bwI bxI bzI cooI zipI stateI = .error .insufficientHeaderRows ↔
      g.length < 3 := by
  rw [process, h]
  dsimp only
  rcases hph : processHawb g bwI bxI bzI cooI zipI stateI with e | out
  · have hiff := processHawb_insufficient_iff g bwI bxI bzI cooI zipI stateI
    rw [hph] at hiff
    simpa using hiff
  · have hiff := processHawb_insufficient_iff g bwI bxI bzI cooI zipI stateI
    rw [hph] at hiff
    have hng : ¬ g.length < 3 := by
      intro hlt
      exact absurd (hiff.mpr hlt) (by simp)
    rcases hm : lookupSheet c ("mawb") with _ | mg
    · simp [hm, hng]
    · simp [hm, hng]

/-- Witness for C2 amended at a concrete 3-row container: no
insufficient-rows error is reported. -/
theorem C2_insufficient_iff_witness :
    (process [("hawb", [[Cell.text ("r0")], [Cell.text ("h0")], [Cell.text ("d0")]]),
        ("mawb", [[Cell.text ("c")]])] 74 75 77 63 78 23
      = .error .insufficientHeaderRows) ↔
    ([[Cell.text ("r0")], [Cell.text ("h0")], [Cell.text ("d0")]] :
      List (List Cell)).length < 3 :=
  C2_insufficient_iff _ [[Cell.text ("r0")], [Cell.text ("h0")], [Cell.text ("d0")]]
    74 75 77 63 78 23 rfl

/-! ### C3: duplicate header names -/

/-- C3 counterexample: with two identically named columns, resolution
yields the duplicated name and the set-constant rule overwrites both
columns' data cells, so the later duplicate does not keep its value. -/
theorem C3_counterexample :
    get_col_by_header_row [Cell.text ("country_of_origin"), Cell.text ("country_of_origin")]
        ["country_of_origin", "unnamed: 63"] (some 63) = some ("country_of_origin") ∧
    applyCooCol ["country_of_origin", "country_of_origin"] (some ("country_of_origin"))
        [[Cell.text ("US"), Cell.text ("DE")]]
      = [[Cell.text ("CN"), Cell.text ("CN")]] ∧
    Cell.text ("CN") ≠ Cell.text ("DE") :=
  ⟨rfl, rfl, by decide⟩

/-- C3 amended: resolution returns a header name, not a position; a
per-row set-constant rule keyed by a name borne by several columns
overwrites every data cell in every column bearing that name, later
duplicates included. -/
theorem C3_dup_overwrite (headers : List String) (nm : String)
    (rows : List (List Cell)) (i j : Nat)
    (hmem : nm ∈ headers) (hi : i < rows.length) (hj : j < (rows.getD i []).length)
    (hjh : j < headers.length) (hname : headers.getD j "" = nm) :
    ((applyCooCol headers (some nm) rows).getD i []).getD j Cell.missing
      = Cell.text ("CN") := by
  have hc : headers.contains nm = true := List.elem_iff.mpr hmem
  simp only [applyCooCol, hc, if_true]
  rw [getD_map_lt (setNamedCN nm headers) rows i [] [] hi]
  rw [setNamedCN_getD nm headers (rows.getD i []) j hj hjh]
  rw [if_pos hname]

/-- Witness for C3 amended: the second of two duplicate columns is
overwritten with "CN". -/
theorem C3_dup_overwrite_witness :
    ((applyCooCol ["country_of_origin", "country_of_origin"]
        (some ("country_of_origin")) [[Cell.text ("US"), Cell.text ("DE")]]).getD 0
      []).getD 1 Cell.missing = Cell.text ("CN") :=
  C3_dup_overwrite ["country_of_origin", "country_of_origin"] ("country_of_origin")
    [[Cell.text ("US"), Cell.text ("DE")]] 0 1 (by decide) (by decide) (by decide)
    (by decide) (by decide)

/-! ### C10: the mawb edit on an empty sheet without the column -/

/-- C10: a mawb sheet with zero data rows and no `consignee_id_number`
header is replaced by a one-column, one-row sheet holding "2567704", and
every other input header is absent from the output. -/
theorem C10_mawb_empty (hs : List String)
    (h : ("consignee_id_number" : String) ∉ hs.map strTrim) :
    mawbTransform hs [] = (["consignee_id_number"], [[Cell.text ("2567704")]]) ∧
    ∀ x : String, x ≠ "consignee_id_number" → x ∉ (mawbTransform hs []).fst := by
  have hc : ¬ ((hs.map strTrim).contains ("consignee_id_number") = true) := by
    simpa using h
  have hm : mawbTransform hs [] = (["consignee_id_number"], [[Cell.text ("2567704")]]) := by
    simp only [mawbTransform]
    rw [if_neg hc]
  refine ⟨hm, ?_⟩
  intro x hx
  rw [hm]
  simp [hx]

/-- Witness for C10 at a concrete two-column header. -/
theorem C10_mawb_empty_witness :
    mawbTransform ["a", "b"] [] = (["consignee_id_number"], [[Cell.text ("2567704")]]) :=
  (C10_mawb_empty ["a", "b"] (by decide)).1

/-! ### C4: the strategy chain order -/

/-- C4: resolution tries exact match, normalized fuzzy match, positional
placeholder and index fallback in that fixed order, the first strategy to
yield a match wins and no later strategy is consulted; when an exact
match exists the result is that exact match for every fallback index. -/
theorem C4_strategy_order (hr : List Cell) (cands : List String) (fb : Option Nat) :
    (∀ r, exactMatch (trimmedHeaders hr) cands = some r →
      get_col_by_header_row hr cands fb = some r) ∧
    (exactMatch (trimmedHeaders hr) cands = none →
      ∀ r, fuzzyMatch (trimmedHeaders hr) cands = some r →
        get_col_by_header_row hr cands fb = some r) ∧
    (exactMatch (trimmedHeaders hr) cands = none →
      fuzzyMatch (trimmedHeaders hr) cands = none →
      ∀ r, unnamedMatch (trimmedHeaders hr) cands = some r →
        get_col_by_header_row hr cands fb = some r) ∧
    (exactMatch (trimmedHeaders hr) cands = none →
      fuzzyMatch (trimmedHeaders hr) cands = none →
      unnamedMatch (trimmedHeaders hr) cands = none →
      get_col_by_header_row hr cands fb = fallbackMatch (trimmedHeaders hr) fb) ∧
    ((∃ c ∈ cands, (trimmedHeaders hr).contains (strTrim c) = true) →
      ∃ r, exactMatch (trimmedHeaders hr) cands = some r ∧
        ∀ fb' : Option Nat, get_col_by_header_row hr cands fb' = some r) := by
  refine ⟨?_, ?_, ?_, ?_, ?_⟩
  · intro r h
    simp [get_col_by_header_row, h]
  · intro h1 r h2
    simp [get_col_by_header_row, h1, h2]
  · intro h1 h2 r h3
    simp [get_col_by_header_row, h1, h2, h3]
  · intro h1 h2 h3
    simp [get_col_by_header_row, h1, h2, h3]
  · rintro ⟨c, hc, hcont⟩
    have hsome : (cands.find? (fun c => (trimmedHeaders hr).contains (strTrim c))).isSome := by
      rw [List.find?_isSome]
      exact ⟨c, hc, hcont⟩
    obtain ⟨c', hc'⟩ := Option.isSome_iff_exists.mp hsome
    have he : exactMatch (trimmedHeaders hr) cands = some (strTrim c') := by
      rw [exactMatch, hc']
      rfl
    exact ⟨strTrim c', he, fun fb' => by simp [get_col_by_header_row, he]⟩

/-- Witness for C4: the header "target" is matched exactly, and the
fallback index pointing at the different column 0 is ignored. -/
theorem C4_strategy_order_witness :
    get_col_by_header_row [Cell.text ("foo"), Cell.text ("target")] ["target"] (some 0)
      = some ("target") ∧
    get_col_by_header_row [Cell.text ("foo"), Cell.text ("target")] ["target"] none
      = some ("target") := by
  obtain ⟨r, h1, h2⟩ :=
    (C4_strategy_order [Cell.text ("foo"), Cell.text ("target")] ["target"]
      (some 0)).2.2.2.2 ⟨"target", by decide, by decide⟩
  have hr : r = "target" := by
    rw [show exactMatch (trimmedHeaders [Cell.text ("foo"), Cell.text ("target")])
        ["target"] = some ("target") from rfl] at h1
    exact (Option.some.inj h1).symm
  subst hr
  exact ⟨h2 (some 0), h2 none⟩

/-! ### C5: fuzzy match is governed by header order -/

/-- C5: when no exact match exists, the fuzzy strategy returns the first
header cell in header order whose normalized form equals the normalized
form of any candidate, regardless of candidate preference order. -/
theorem C5_fuzzy_header_order (hr : List Cell) (cands : List String) (fb : Option Nat)
    (pre : List String) (h : String) (suf : List String)
    (hsplit : trimmedHeaders hr = pre ++ h :: suf)
    (hexact : exactMatch (trimmedHeaders hr) cands = none)
    (hh : norm h ∈ cands.map norm)
    (hpre : ∀ h' ∈ pre, norm h' ∉ cands.map norm) :
    get_col_by_header_row hr cands fb = some h := by
  have hfuzzy : fuzzyMatch (trimmedHeaders hr) cands = some h := by
    rw [fuzzyMatch, hsplit]
    exact find?_append_split (fun x hx => by simpa using hpre x hx) (by simpa using hh)
  simp [get_col_by_header_row, hexact, hfuzzy]

/-- Witness for C5: header "Beta!" (matching the later candidate "beta")
wins over the later header "Alpha?" (matching the earlier candidate
"alpha") because iteration follows header order. -/
theorem C5_fuzzy_header_order_witness :
    get_col_by_header_row [Cell.text ("Beta!"), Cell.text ("Alpha?")]
      ["alpha", "beta"] (some 1) = some ("Beta!") ∧
    norm ("Alpha?") = norm ("alpha") :=
  ⟨C5_fuzzy_header_order [Cell.text ("Beta!"), Cell.text ("Alpha?")] ["alpha", "beta"]
    (some 1) [] ("Beta!") ["Alpha?"] (by decide) (by decide) (by decide)
    (by simp), by decide⟩

/-! ### C9: resolution is total and unresolved columns are no-ops -/

/-- C9: resolution always returns either a genuine header name or none,
and a rule whose column is unresolved (none) leaves the data rows of the
grid unchanged — a silent no-op, with no error reported. -/
theorem C9_total_noop :
    (∀ (hr : List Cell) (cands : List String) (fb : Option Nat),
      get_col_by_header_row hr cands fb = none ∨
      ∃ nm, get_col_by_header_row hr cands fb = some nm ∧ nm ∈ trimmedHeaders hr) ∧
    (∀ (headers : List String) (t : Nat) (rows : List (List Cell)),
      applyTruncCol headers none t rows = rows) ∧
    (∀ (headers : List String) (rows : List (List Cell)),
      applyCooCol headers none rows = rows) ∧
    (∀ (headers : List String) (rows : List (List Cell)),
      applyZipCol headers none rows = rows) := by
  refine ⟨?_, fun _ _ _ => rfl, fun _ _ => rfl, fun _ _ => rfl⟩
  intro hr cands fb
  rcases he : exactMatch (trimmedHeaders hr) cands with _ | r
  · rcases hf : fuzzyMatch (trimmedHeaders hr) cands with _ | h
    · rcases hu : unnamedMatch (trimmedHeaders hr) cands with _ | u
      · rcases fb with _ | i
        · left
          simp [get_col_by_header_row, he, hf, hu, fallbackMatch]
        · by_cases hi : i < (trimmedHeaders hr).length
          · right
            refine ⟨(trimmedHeaders hr).getD i "", ?_, getD_mem hi⟩
            simp [get_col_by_header_row, he, hf, hu, fallbackMatch, hi]
          · left
            simp [get_col_by_header_row, he, hf, hu, fallbackMatch, hi]
      · right
        refine ⟨u, by simp [get_col_by_header_row, he, hf, hu], unnamedMatch_mem hu⟩
    · right
      refine ⟨h, by simp [get_col_by_header_row, he, hf], ?_⟩
      have hf' : (trimmedHeaders hr).find?
          (fun x => (cands.map norm).contains (norm x)) = some h := hf
      exact List.mem_of_find?_eq_some hf'
  · right
    rw [exactMatch] at he
    obtain ⟨c, hfind, htrim⟩ := Option.map_eq_some'.mp he
    have hp := List.find?_some hfind
    refine ⟨r, ?_, ?_⟩
    · rw [get_col_by_header_row, exactMatch, hfind, Option.map_some']
      rw [htrim]
    · rw [← htrim]
      exact List.elem_iff.mp hp

/-! ### C8: missing mawb sheet is fatal with no output -/

/-- C8: when the mawb sheet is absent the invocation produces no output
container at all, and — the hawb stage having passed — it fails with the
missing-required-sheet condition naming "mawb". -/
theorem C8_mawb_missing (c : Container) (bwI bxI bzI cooI zipI stateI : Nat)
    (hm : lookupSheet c ("mawb") = none) :
    (∀ out, process c bwI bxI bzI cooI zipI stateI ≠ .ok out) ∧
    (∀ g, lookupSheet c ("hawb") = some g → ¬ g.length < 3 →
      hasDup (trimmedHeaders (g.getD 1 [])) = false →
      process c bwI bxI bzI cooI zipI stateI
        = .error (.missingRequiredSheet ("mawb"))) := by
  constructor
  · intro out hout
    rw [process] at hout
    rcases hh : lookupSheet c ("hawb") with _ | hg
    · rw [hh] at hout
      simp at hout
    · rw [hh] at hout
      rcases hph : processHawb hg bwI bxI bzI cooI zipI stateI with e | o <;>
        simp [hph, hm] at hout
  · intro g hg h3 hd
    obtain ⟨out, hout⟩ := processHawb_ok g bwI bxI bzI cooI zipI stateI h3 hd
    rw [process, hg]
    simp [hout, hm]

/-- Witness for C8 at a concrete container holding only a well-formed
hawb sheet. -/
theorem C8_mawb_missing_witness :
    process [("hawb", [[Cell.text ("r0")], [Cell.text ("h0")], [Cell.text ("d0")]])]
      74 75 77 63 78 23 = .error (.missingRequiredSheet ("mawb")) :=
  (C8_mawb_missing
      [("hawb", [[Cell.text ("r0")], [Cell.text ("h0")], [Cell.text ("d0")]])]
      74 75 77 63 78 23 rfl).2
    [[Cell.text ("r0")], [Cell.text ("h0")], [Cell.text ("d0")]] rfl
    (by decide) (by decide)

end Nimbus
